import Mathlib

/-!
Verification of the core of `ab1_to_png.py`: a shallow embedding of
`parse_ab1_traces`, `_guess_window_from_signal`, `plot_chromatogram`,
`process_single_file` and `process_path`, together with theorems settling
the specification claims about them.

Modelling conventions:
* The abifpy `Trace` reader is an external black box; we model the already
  opened file as a record of the tag values the code reads.  A tag value of
  `none` covers all the situations the code treats the same way: the tag is
  absent from `reader.tags`, `get_data` returned `None`, or `get_data`
  raised one of the caught exception classes.
* Machine integers: trace samples and base positions are Python ints, so
  they are modelled as `Int` with no overflow.
* The numpy float threshold `merged >= max_intensity * 0.01` is modelled
  exactly over the integers as `100 * merged[i] >= max_intensity`.
* Effects (writing the PNG, closing the matplotlib figure, log lines) are
  modelled as explicit fields of result records; whether `plt.savefig`
  succeeds is a boolean parameter of the model.
-/

namespace Ab1

/-- A trace dictionary: base letter mapped to its intensity samples, in
insertion order (Python dicts preserve insertion order). -/
abbrev TraceSet := List (Char × List Int)

/-- Models Python `bytes.decode(errors="ignore")` on ASCII-range data:
bytes below 128 decode to the corresponding character and all other bytes
are dropped (as happens to invalid sequences under `errors="ignore"`). -/
def decodeIgnore (bs : List Nat) : String :=
  String.mk ((bs.filter (fun b => b < 128)).map Char.ofNat)

/-- The error taxonomy of the extractor: `fileFormat` models the
`ValueError` raised when abifpy cannot open the file, `missingField` the
`ValueError` raised when a required tag is absent or undecodable.  The
`missingField` payload names the missing tag. -/
inductive Ab1Error where
  | fileFormat (msg : String)
  | missingField (field : String)
deriving Repr, DecidableEq

/-- The error message text attached to each error, as in the source. -/
def errMsg : Ab1Error → String
  | .fileFormat e => "无法打开 ab1 文件: " ++ e
  | .missingField k => "无法从 ab1 文件中获取 " ++ k ++ " 数据"

/-- The tag values of one opened ab1 file, as read by `parse_ab1_traces`.
`openError = some e` models `Trace(path)` raising; each other field is the
value the code effectively obtains for that tag (`none` = absent /
`None` / raising a caught exception class). -/
structure AbifFile where
  openError : Option String
  pbas2 : Option (List Nat)
  pbas1 : Option (List Nat)
  ploc2 : Option (List Int)
  fwo : Option (List Nat)
  data9 : Option (List Int)
  data10 : Option (List Int)
  data11 : Option (List Int)
  data12 : Option (List Int)
deriving Repr, DecidableEq

/-- The four base letters, in the order of the membership test
`b in "ACGT"` of the source. -/
def acgtChars : List Char := ['A', 'C', 'G', 'T']

/-- The fixed default channel order used when `FWO_` is absent or yields
no valid base letters. -/
def defaultOrder : List Char := ['G', 'A', 'T', 'C']

/-- `traces[base] = data`: Python dict assignment.  An existing key keeps
its position and gets the new value; a new key is appended at the end. -/
def dictInsert (d : TraceSet) (k : Char) (v : List Int) : TraceSet :=
  if d.any (fun p => p.1 == k) then
    d.map (fun p => if p.1 == k then (k, v) else p)
  else
    d ++ [(k, v)]

/-- The loop `for base, key in zip(channel_order, data_keys[:4]):
traces[base] = data_channels[key]` building the trace dictionary. -/
def buildTraces (order : List Char) (chans : List (List Int)) : TraceSet :=
  (order.zip chans).foldl (fun d p => dictInsert d p.1 p.2) []

/-- Channel-order resolution: decode `FWO_`, keep only the characters in
"ACGT", and fall back to the default order `G,A,T,C` when the tag is
absent or the filtered list is empty. -/
def channelOrderOf (fwo : Option (List Nat)) : List Char :=
  match fwo with
  | none => defaultOrder
  | some bs =>
      let co := (decodeIgnore bs).data.filter (fun c => decide (c ∈ acgtChars))
      if co = [] then defaultOrder else co

/-- Sequence resolution: prefer `PBAS2`, fall back to `PBAS1`. -/
def resolveSeqBytes (f : AbifFile) : Option (List Nat) :=
  match f.pbas2 with
  | some b => some b
  | none => f.pbas1

/-- Channel resolution: the loop over `DATA9, DATA10, DATA11, DATA12`
(in dict insertion order) raising on the first missing channel. -/
def resolveChannels (f : AbifFile) : Except Ab1Error (List (List Int)) :=
  match f.data9 with
  | none => .error (.missingField "DATA9")
  | some d9 =>
    match f.data10 with
    | none => .error (.missingField "DATA10")
    | some d10 =>
      match f.data11 with
      | none => .error (.missingField "DATA11")
      | some d11 =>
        match f.data12 with
        | none => .error (.missingField "DATA12")
        | some d12 => .ok [d9, d10, d11, d12]

/-- The result of `parse_ab1_traces`: the trace dictionary, the decoded
sequence, `base_calls` (an alias of the sequence in the source) and the
optional base positions. -/
structure ParseResult where
  traces : TraceSet
  seq : String
  baseCalls : String
  basePositions : Option (List Int)
deriving Repr, DecidableEq

/-- `parse_ab1_traces`: open the file, resolve the called sequence
(PBAS2 preferred, PBAS1 fallback, both absent is an error), the optional
base positions (PLOC2), the channel order (FWO_ with default fallback)
and the four DATA channels (each required), then zip order with channels
into the trace dictionary. -/
def parse_ab1_traces (f : AbifFile) : Except Ab1Error ParseResult :=
  match f.openError with
  | some e => .error (.fileFormat e)
  | none =>
    match resolveSeqBytes f with
    | none => .error (.missingField "序列数据（PBAS2 和 PBAS1）")
    | some sb =>
      let seq := decodeIgnore sb
      let channelOrder := channelOrderOf f.fwo
      match resolveChannels f with
      | .error e => .error e
      | .ok chans =>
          .ok { traces := buildTraces channelOrder chans
              , seq := seq
              , baseCalls := seq
              , basePositions := f.ploc2 }

/-- `min` of a nonempty Python list (the empty case is never reached at
the guarded call sites; 0 is a junk value). -/
def listMin (l : List Int) : Int :=
  match l with
  | [] => 0
  | a :: t => t.foldl min a

/-- `max` of a nonempty Python list. -/
def listMax (l : List Int) : Int :=
  match l with
  | [] => 0
  | a :: t => t.foldl max a

/-- `min` of a nonempty list of indices. -/
def natListMin (l : List Nat) : Nat :=
  match l with
  | [] => 0
  | a :: t => t.foldl min a

/-- `max` of a nonempty list of indices. -/
def natListMax (l : List Nat) : Nat :=
  match l with
  | [] => 0
  | a :: t => t.foldl max a

/-- numpy `+` on two equal-length sample arrays.  (On unequal lengths
numpy raises; all uses below are guarded by equal-length facts.) -/
def addSamples (a b : List Int) : List Int := List.zipWith (· + ·) a b

/-- `_guess_window_from_signal` with its default parameters
(`threshold_ratio=0.01`, `padding=100`), as called by the renderer.
Errors model the exceptions the Python code would raise: `StopIteration`
on an empty trace dict and numpy's zero-size reduction error when the
channels are empty.  The float threshold `merged >= max_intensity * 0.01`
is modelled exactly as `100 * merged[i] >= max_intensity`. -/
def _guess_window_from_signal (traces : TraceSet) : Except String (Int × Int) :=
  match traces with
  | [] => .error "StopIteration"
  | (_, c0) :: rest =>
    let length := c0.length
    let merged := (rest.map Prod.snd).foldl addSamples c0
    match merged with
    | [] => .error "zero-size array reduction"
    | _ :: _ =>
      let maxIntensity := listMax merged
      if maxIntensity ≤ 0 then .ok (0, (length : Int) - 1)
      else
        let indices := (List.range merged.length).filter
          (fun i => decide (maxIntensity ≤ 100 * merged.getD i 0))
        match indices with
        | [] => .ok (0, (length : Int) - 1)
        | _ :: _ =>
          .ok (max ((natListMin indices : Int) - 100) 0,
               min ((natListMax indices : Int) + 100) ((length : Int) - 1))

/-- The display-window computation at the `plt.xlim` site of
`plot_chromatogram`: `if base_positions:` (truthy = present and
non-empty) use the position bounds with padding 100, else fall back to
the signal heuristic. -/
def computeWindow (traces : TraceSet) (basePositions : Option (List Int))
    (length : Nat) : Except String (Int × Int) :=
  match basePositions with
  | some ps =>
      if ps = [] then _guess_window_from_signal traces
      else .ok (max (listMin ps - 100) 0, min (listMax ps + 100) ((length : Int) - 1))
  | none => _guess_window_from_signal traces

/-- The guide-line / label loop of `plot_chromatogram`: under
`if base_positions is not None and base_calls:`, enumerate
`zip(base_positions, base_calls)`; a vline is drawn for every pair whose
position lies in `[0, length)`, and a text label additionally when the
pair's index is divisible by 50.  Returns (vlines, labels) as
(index, position, base) triples. -/
def renderMarks (basePositions : Option (List Int)) (baseCalls : String)
    (length : Nat) : List (Nat × Int × Char) × List (Nat × Int × Char) :=
  match basePositions with
  | none => ([], [])
  | some ps =>
      if baseCalls = "" then ([], [])
      else
        let pairs := (ps.zip baseCalls.data).enum
        let vlines := pairs.filter (fun q => decide (0 ≤ q.2.1 ∧ q.2.1 < (length : Int)))
        let labels := vlines.filter (fun q => q.1 % 50 == 0)
        (vlines, labels)

deriving instance DecidableEq for Except

/-- The observable outcome of one `plot_chromatogram` call: whether it
returned or raised, whether `plt.close()` ran, whether the PNG was
written, the window passed to `plt.xlim`, and the drawn marks. -/
structure PlotOutcome where
  result : Except String Unit
  figureClosed : Bool
  fileWritten : Bool
  window : Option (Int × Int)
  vlines : List (Nat × Int × Char)
  labels : List (Nat × Int × Char)
deriving Repr, DecidableEq

/-- Outcome of a `plot_chromatogram` call that raises before reaching
`plt.savefig`: the exception propagates and `plt.close()` never runs. -/
def plotRaised (e : String) : PlotOutcome :=
  { result := .error e, figureClosed := false, fileWritten := false
  , window := none, vlines := [], labels := [] }

/-- `plot_chromatogram` (title, dpi and figure size do not affect the
modelled observables and are omitted).  Steps, in source order: open a
figure; take the first channel's length; `plt.plot` each channel (numpy
raises if a channel's length differs from the x-range's); compute the
window; draw marks; `plt.savefig` (success modelled by `saveOk`); and
`plt.close()` — which the source runs only after a successful save, there
being no try/finally. -/
def plot_chromatogram (traces : TraceSet) (seq : String) (baseCalls : String)
    (basePositions : Option (List Int)) (saveOk : Bool) : PlotOutcome :=
  match traces with
  | [] => plotRaised "StopIteration"
  | (b0, c0) :: rest =>
    let length := c0.length
    if rest.any (fun p => p.2.length ≠ length) then
      plotRaised "x and y must have same first dimension"
    else
      match computeWindow ((b0, c0) :: rest) basePositions length with
      | .error e => plotRaised e
      | .ok w =>
        let marks := renderMarks basePositions baseCalls length
        if saveOk then
          { result := .ok (), figureClosed := true, fileWritten := true
          , window := some w, vlines := marks.1, labels := marks.2 }
        else
          { result := .error "savefig failed", figureClosed := false
          , fileWritten := false
          , window := some w, vlines := marks.1, labels := marks.2 }

/-- `Path(name).with_suffix(".png").name`: replace the extension after
the last dot with `.png`, or append `.png` when there is no dot. -/
def withSuffixPng (name : String) : String :=
  let rev := name.data.reverse
  if rev.contains '.' then
    String.mk ((rev.drop (rev.indexOf '.' + 1)).reverse) ++ ".png"
  else
    name ++ ".png"

/-- One input file of a batch: its (display) name and its tag contents. -/
structure NamedFile where
  name : String
  file : AbifFile
deriving Repr, DecidableEq

/-- The observable outcome of one `process_single_file` call: the
returned `(success, error_message)` pair, whether the PNG was written,
and the emitted log lines. -/
structure SingleResult where
  success : Bool
  message : Option String
  written : Bool
  logs : List String
deriving Repr, DecidableEq

/-- `process_single_file`: run parse then plot inside `try`; on success
log `[OK]` and return `(True, None)`; on any exception log `[ERROR]`
lines naming the file and return `(False, str(e))`. -/
def process_single_file (nf : NamedFile) (saveOk : Bool) : SingleResult :=
  match parse_ab1_traces nf.file with
  | .error e =>
      { success := false, message := some (errMsg e), written := false
      , logs := ["[ERROR] 处理 " ++ nf.name ++ " 时出错: " ++ errMsg e] }
  | .ok r =>
      let po := plot_chromatogram r.traces r.seq r.baseCalls r.basePositions saveOk
      match po.result with
      | .error e =>
          { success := false, message := some e, written := po.fileWritten
          , logs := ["[ERROR] 处理 " ++ nf.name ++ " 时出错: " ++ e] }
      | .ok _ =>
          { success := true, message := none, written := po.fileWritten
          , logs := ["[OK] " ++ nf.name ++ " -> " ++ withSuffixPng nf.name] }

/-- The parse-then-plot pipeline without the surrounding `try/except`:
the exception (message) that would propagate out of the conversion if it
were not caught, or `ok` if the conversion completes. -/
def conversionOutcome (nf : NamedFile) (saveOk : Bool) : Except String Unit :=
  match parse_ab1_traces nf.file with
  | .error e => .error (errMsg e)
  | .ok r => (plot_chromatogram r.traces r.seq r.baseCalls r.basePositions saveOk).result

/-- Python truthiness of the `(success, error_message)` pair returned by
`process_single_file`: the batch driver tests `if process_single_file(...)`,
and a non-empty tuple is truthy regardless of its contents. -/
def pairTruthy (t : Bool × Option String) : Bool := true

/-- The observable outcome of `process_path` on a directory: the per-file
results and the `success_count`/total printed in the final summary. -/
structure BatchResult where
  results : List SingleResult
  summarySuccess : Nat
  total : Nat
deriving Repr, DecidableEq

/-- `process_path` over the trace files found in a directory (extension
filtering is plumbing outside the model).  Each file is paired with
whether its save succeeds.  `success_count` is incremented under
`if process_single_file(...)`, i.e. on the truthiness of the returned
pair. -/
def process_path (files : List (NamedFile × Bool)) : BatchResult :=
  let results := files.map (fun p => process_single_file p.1 p.2)
  { results := results
  , summarySuccess :=
      (results.filter (fun r => pairTruthy (r.success, r.message))).length
  , total := results.length }

/-! Specification-side formulations used to state the window claims
independently of the heuristic's own folds. -/

/-- The sample-wise sum of all channels at index `i` (the spec's merged
intensity curve). -/
def mergedAt (traces : TraceSet) (i : Nat) : Int :=
  (traces.map (fun p => p.2.getD i 0)).sum

/-- The maximum of the merged curve over `[0, L)` (the spec's `M`). -/
def maxMerged (traces : TraceSet) (L : Nat) : Int :=
  listMax ((List.range L).map (mergedAt traces))

/-- The spec's qualifying index set `Q`: indices of `[0, L)` whose merged
intensity is at least 1% of `m` (exactly: `100 * merged[i] ≥ m`). -/
def qualifying (traces : TraceSet) (m : Int) (L : Nat) : List Nat :=
  (List.range L).filter (fun i => decide (m ≤ 100 * mergedAt traces i))

/-- An all-zero channel of length `L`. -/
def zeroChan (L : Nat) : List Int := List.replicate L 0

/-- A channel of length `L` that is zero except for value `v` at `k`. -/
def spikeChan (L k : Nat) (v : Int) : List Int :=
  (List.range L).map (fun i => if i = k then v else 0)

/-- A four-channel trace set whose merged curve has a single non-zero
sample `v` at index `k`. -/
def spikeTraces (L k : Nat) (v : Int) : TraceSet :=
  [('G', spikeChan L k v), ('A', zeroChan L), ('T', zeroChan L), ('C', zeroChan L)]

/-! Generic helper lemmas about folded minima and maxima. -/

theorem foldlMin_le_init {α} [LinearOrder α] (l : List α) (a : α) :
    l.foldl min a ≤ a := by
  induction l generalizing a with
  | nil => exact le_refl a
  | cons b t ih => exact le_trans (ih (min a b)) (min_le_left a b)

theorem foldlMin_le_of_mem {α} [LinearOrder α] {l : List α} {x : α}
    (h : x ∈ l) (a : α) : l.foldl min a ≤ x := by
  induction l generalizing a with
  | nil => cases h
  | cons b t ih =>
    rcases List.mem_cons.mp h with rfl | hx
    · exact le_trans (foldlMin_le_init t (min a x)) (min_le_right a x)
    · exact ih hx (min a b)

theorem foldlMin_eq_or_mem {α} [LinearOrder α] (l : List α) (a : α) :
    l.foldl min a = a ∨ l.foldl min a ∈ l := by
  induction l generalizing a with
  | nil => exact Or.inl rfl
  | cons b t ih =>
    rcases ih (min a b) with h | h
    · rcases min_choice a b with h2 | h2
      · exact Or.inl (by rw [List.foldl_cons, h, h2])
      · exact Or.inr (by rw [List.foldl_cons, h, h2]; exact List.mem_cons_self b t)
    · exact Or.inr (List.mem_cons_of_mem b h)

theorem le_foldlMax_init {α} [LinearOrder α] (l : List α) (a : α) :
    a ≤ l.foldl max a := by
  induction l generalizing a with
  | nil => exact le_refl a
  | cons b t ih => exact le_trans (le_max_left a b) (ih (max a b))

theorem le_foldlMax_of_mem {α} [LinearOrder α] {l : List α} {x : α}
    (h : x ∈ l) (a : α) : x ≤ l.foldl max a := by
  induction l generalizing a with
  | nil => cases h
  | cons b t ih =>
    rcases List.mem_cons.mp h with rfl | hx
    · exact le_trans (le_max_right a x) (le_foldlMax_init t (max a x))
    · exact ih hx (max a b)

theorem foldlMax_eq_or_mem {α} [LinearOrder α] (l : List α) (a : α) :
    l.foldl max a = a ∨ l.foldl max a ∈ l := by
  induction l generalizing a with
  | nil => exact Or.inl rfl
  | cons b t ih =>
    rcases ih (max a b) with h | h
    · rcases max_choice a b with h2 | h2
      · exact Or.inl (by rw [List.foldl_cons, h, h2])
      · exact Or.inr (by rw [List.foldl_cons, h, h2]; exact List.mem_cons_self b t)
    · exact Or.inr (List.mem_cons_of_mem b h)

theorem listMin_mem {l : List Int} (h : l ≠ []) : listMin l ∈ l := by
  match l with
  | a :: t =>
    rcases foldlMin_eq_or_mem t a with h2 | h2
    · show List.foldl min a t ∈ a :: t
      rw [h2]; exact List.mem_cons_self a t
    · exact List.mem_cons_of_mem a h2

theorem listMin_le {l : List Int} {x : Int} (hx : x ∈ l) : listMin l ≤ x := by
  match l with
  | a :: t =>
    rcases List.mem_cons.mp hx with rfl | hx2
    · exact foldlMin_le_init t x
    · exact foldlMin_le_of_mem hx2 a

theorem listMax_mem {l : List Int} (h : l ≠ []) : listMax l ∈ l := by
  match l with
  | a :: t =>
    rcases foldlMax_eq_or_mem t a with h2 | h2
    · show List.foldl max a t ∈ a :: t
      rw [h2]; exact List.mem_cons_self a t
    · exact List.mem_cons_of_mem a h2

theorem le_listMax {l : List Int} {x : Int} (hx : x ∈ l) : x ≤ listMax l := by
  match l with
  | a :: t =>
    rcases List.mem_cons.mp hx with rfl | hx2
    · exact le_foldlMax_init t x
    · exact le_foldlMax_of_mem hx2 a

theorem natListMin_mem {l : List Nat} (h : l ≠ []) : natListMin l ∈ l := by
  match l with
  | a :: t =>
    rcases foldlMin_eq_or_mem t a with h2 | h2
    · show List.foldl min a t ∈ a :: t
      rw [h2]; exact List.mem_cons_self a t
    · exact List.mem_cons_of_mem a h2

theorem natListMin_le {l : List Nat} {x : Nat} (hx : x ∈ l) : natListMin l ≤ x := by
  match l with
  | a :: t =>
    rcases List.mem_cons.mp hx with rfl | hx2
    · exact foldlMin_le_init t x
    · exact foldlMin_le_of_mem hx2 a

theorem natListMax_mem {l : List Nat} (h : l ≠ []) : natListMax l ∈ l := by
  match l with
  | a :: t =>
    rcases foldlMax_eq_or_mem t a with h2 | h2
    · show List.foldl max a t ∈ a :: t
      rw [h2]; exact List.mem_cons_self a t
    · exact List.mem_cons_of_mem a h2

theorem le_natListMax {l : List Nat} {x : Nat} (hx : x ∈ l) : x ≤ natListMax l := by
  match l with
  | a :: t =>
    rcases List.mem_cons.mp hx with rfl | hx2
    · exact le_foldlMax_init t x
    · exact le_foldlMax_of_mem hx2 a

/-! Bridging lemmas between the heuristic's folds and the element-wise
formulation `mergedAt`. -/

theorem addSamples_length {a b : List Int} (h : b.length = a.length) :
    (addSamples a b).length = a.length := by
  simp [addSamples, h]

theorem addSamples_getD {a b : List Int} (i : Nat) (hb : b.length = a.length)
    (hi : i < a.length) :
    (addSamples a b).getD i 0 = a.getD i 0 + b.getD i 0 := by
  have hlen : i < (addSamples a b).length := by rw [addSamples_length hb]; exact hi
  rw [List.getD_eq_getElem _ _ hlen, List.getD_eq_getElem _ _ hi,
    List.getD_eq_getElem _ _ (by rw [hb]; exact hi)]
  simp [addSamples]

theorem foldl_addSamples_length (cs : List (List Int)) (c0 : List Int)
    (h : ∀ c ∈ cs, c.length = c0.length) :
    (cs.foldl addSamples c0).length = c0.length := by
  induction cs generalizing c0 with
  | nil => rfl
  | cons c t ih =>
    have hc : c.length = c0.length := h c (List.mem_cons_self c t)
    have h1 : (addSamples c0 c).length = c0.length := addSamples_length hc
    rw [List.foldl_cons, ih (addSamples c0 c)
      (fun d hd => by rw [h d (List.mem_cons_of_mem c hd), h1]), h1]

theorem foldl_addSamples_getD (cs : List (List Int)) (c0 : List Int) (i : Nat)
    (h : ∀ c ∈ cs, c.length = c0.length) (hi : i < c0.length) :
    (cs.foldl addSamples c0).getD i 0 =
      c0.getD i 0 + (cs.map (fun c => c.getD i 0)).sum := by
  induction cs generalizing c0 with
  | nil => simp
  | cons c t ih =>
    have hc : c.length = c0.length := h c (List.mem_cons_self c t)
    have h1 : (addSamples c0 c).length = c0.length := addSamples_length hc
    rw [List.foldl_cons,
      ih (addSamples c0 c)
        (fun d hd => by rw [h d (List.mem_cons_of_mem c hd), h1])
        (by rw [h1]; exact hi),
      addSamples_getD i hc hi]
    simp [add_assoc]

theorem mergedAt_cons (b0 : Char) (c0 : List Int) (rest : TraceSet) (i : Nat) :
    mergedAt ((b0, c0) :: rest) i =
      c0.getD i 0 + ((rest.map Prod.snd).map (fun c => c.getD i 0)).sum := by
  simp only [mergedAt, List.map_cons, List.sum_cons, List.map_map]
  rfl

/-- The merged curve computed by the fold in `_guess_window_from_signal`
is exactly the element-wise channel sum over the index range. -/
theorem merged_eq_map_range (b0 : Char) (c0 : List Int) (rest : TraceSet)
    (h : ∀ p ∈ rest, p.2.length = c0.length) :
    (rest.map Prod.snd).foldl addSamples c0 =
      (List.range c0.length).map (mergedAt ((b0, c0) :: rest)) := by
  have hlen : ∀ c ∈ rest.map Prod.snd, c.length = c0.length := by
    intro c hc
    rcases List.mem_map.mp hc with ⟨p, hp, rfl⟩
    exact h p hp
  apply List.ext_getElem
  · rw [foldl_addSamples_length _ _ hlen]; simp
  · intro i h1 h2
    have hi : i < c0.length := by rw [foldl_addSamples_length _ _ hlen] at h1; exact h1
    rw [← List.getD_eq_getElem _ 0 h1, ← List.getD_eq_getElem _ 0 h2,
      foldl_addSamples_getD _ _ _ hlen hi,
      List.getD_eq_getElem _ 0 h2]
    simp [mergedAt_cons]

theorem getD_map_range {f : Nat → Int} {L i : Nat} (hi : i < L) :
    ((List.range L).map f).getD i 0 = f i := by
  have h1 : i < ((List.range L).map f).length := by simpa using hi
  rw [List.getD_eq_getElem _ 0 h1]
  simp

theorem zeroChan_getD (L i : Nat) : (zeroChan L).getD i 0 = 0 := by
  by_cases h : i < L
  · rw [zeroChan, List.getD_eq_getElem _ 0 (by simpa using h)]; simp
  · rw [List.getD_eq_default]
    simp [zeroChan]
    omega

theorem spikeChan_getD {L k i : Nat} (v : Int) (hi : i < L) :
    (spikeChan L k v).getD i 0 = if i = k then v else 0 := by
  rw [spikeChan, getD_map_range hi]

/-- Filtering the index range by equality with `k` leaves exactly `[k]`. -/
theorem range_filter_eq_pt {L k : Nat} (hk : k < L) :
    (List.range L).filter (fun i => decide (i = k)) = [k] := by
  induction L with
  | zero => omega
  | succ n ih =>
    rw [List.range_succ, List.filter_append]
    by_cases h : k < n
    · rw [ih h]
      have hn : ¬ (n = k) := by omega
      simp [hn]
    · have hkn : k = n := by omega
      subst hkn
      have hnil : (List.range k).filter (fun i => decide (i = k)) = [] := by
        rw [List.filter_eq_nil_iff]
        intro a ha
        have := List.mem_range.mp ha
        simp
        omega
      rw [hnil]
      simp

/-- `resolveChannels` only ever reports one of the four DATA tags. -/
theorem resolveChannels_error_names (f : AbifFile) (e : Ab1Error)
    (h : resolveChannels f = .error e) :
    e = .missingField "DATA9" ∨ e = .missingField "DATA10" ∨
      e = .missingField "DATA11" ∨ e = .missingField "DATA12" := by
  obtain ⟨op, p2, p1, pl, fw, d9, d10, d11, d12⟩ := f
  unfold resolveChannels at h
  rcases d9 with _ | d9 <;> rcases d10 with _ | d10 <;>
    rcases d11 with _ | d11 <;> rcases d12 with _ | d12 <;>
    simp_all

/-- Characterization of `_guess_window_from_signal` on a non-empty trace
dictionary of equal-length channels, in terms of the element-wise merged
curve `mergedAt`: the branch on the maximum intensity and the qualifying
index set. -/
theorem guess_window_characterization (b0 : Char) (c0 : List Int) (rest : TraceSet)
    (L : Nat) (hL : c0.length = L) (hrest : ∀ p ∈ rest, p.2.length = L) (h1 : 1 ≤ L) :
    _guess_window_from_signal ((b0, c0) :: rest) =
      if maxMerged ((b0, c0) :: rest) L ≤ 0 then .ok (0, (L : Int) - 1)
      else
        match qualifying ((b0, c0) :: rest) (maxMerged ((b0, c0) :: rest) L) L with
        | [] => .ok (0, (L : Int) - 1)
        | q :: qs =>
          .ok (max ((natListMin (q :: qs) : Int) - 100) 0,
               min ((natListMax (q :: qs) : Int) + 100) ((L : Int) - 1)) := by
  subst hL
  have hmerged := merged_eq_map_range b0 c0 rest hrest
  simp only [_guess_window_from_signal]
  rw [hmerged]
  have hmax : listMax (List.map (mergedAt ((b0, c0) :: rest)) (List.range c0.length)) =
      maxMerged ((b0, c0) :: rest) c0.length := rfl
  rw [hmax]
  simp only [List.length_map, List.length_range]
  have hfilt : List.filter
      (fun i => decide (maxMerged ((b0, c0) :: rest) c0.length ≤
        100 * (List.map (mergedAt ((b0, c0) :: rest)) (List.range c0.length)).getD i 0))
      (List.range c0.length) =
      qualifying ((b0, c0) :: rest) (maxMerged ((b0, c0) :: rest) c0.length) c0.length := by
    rw [qualifying]
    apply List.filter_congr
    intro i hi
    rw [getD_map_range (List.mem_range.mp hi)]
  rw [hfilt]
  rcases hm : List.map (mergedAt ((b0, c0) :: rest)) (List.range c0.length) with _ | ⟨m, ms⟩
  · exfalso
    have h2 : c0.length = 0 := by simpa using congrArg List.length hm
    omega
  · rcases hq : qualifying ((b0, c0) :: rest) (maxMerged ((b0, c0) :: rest) c0.length) c0.length
      with _ | ⟨q, qs⟩
    · rfl
    · rfl

/-- Claim C10: for every non-empty trace dictionary whose channels all
have the same length `L ≥ 1`, `_guess_window_from_signal` returns a pair
of integers `(start, end)` with `0 ≤ start ≤ end ≤ L - 1`: the display
window is always a valid non-empty subrange of the trace. -/
theorem guess_window_always_valid_subrange (b0 : Char) (c0 : List Int)
    (rest : TraceSet) (L : Nat) (hL : c0.length = L)
    (hrest : ∀ p ∈ rest, p.2.length = L) (h1 : 1 ≤ L) :
    ∃ s e, _guess_window_from_signal ((b0, c0) :: rest) = .ok (s, e) ∧
      0 ≤ s ∧ s ≤ e ∧ e ≤ (L : Int) - 1 := by
  rw [guess_window_characterization b0 c0 rest L hL hrest h1]
  by_cases hmax : maxMerged ((b0, c0) :: rest) L ≤ 0
  · refine ⟨0, (L : Int) - 1, by simp [hmax], le_refl 0, by omega, le_refl _⟩
  · rw [if_neg hmax]
    rcases hq : qualifying ((b0, c0) :: rest) (maxMerged ((b0, c0) :: rest) L) L
      with _ | ⟨q, qs⟩
    · exact ⟨0, (L : Int) - 1, rfl, le_refl 0, by omega, le_refl _⟩
    · have hmem : ∀ x ∈ q :: qs, x < L := by
        intro x hx
        have hx2 : x ∈ qualifying ((b0, c0) :: rest) (maxMerged ((b0, c0) :: rest) L) L := by
          rw [hq]; exact hx
        have := List.mem_filter.mp hx2
        exact List.mem_range.mp this.1
      have hminmem : natListMin (q :: qs) ∈ q :: qs := natListMin_mem (by simp)
      have hmaxmem : natListMax (q :: qs) ∈ q :: qs := natListMax_mem (by simp)
      have hminL : natListMin (q :: qs) < L := hmem _ hminmem
      have hmaxL : natListMax (q :: qs) < L := hmem _ hmaxmem
      have hle : natListMin (q :: qs) ≤ natListMax (q :: qs) := le_natListMax hminmem
      refine ⟨_, _, rfl, le_max_right _ 0, ?_, min_le_right _ _⟩
      apply max_le
      · apply le_min
        · have : (natListMin (q :: qs) : Int) ≤ (natListMax (q :: qs) : Int) := by
            exact_mod_cast hle
          omega
        · have : (natListMin (q :: qs) : Int) < (L : Int) := by exact_mod_cast hminL
          omega
      · apply le_min
        · have : (0 : Int) ≤ (natListMax (q :: qs) : Int) := by positivity
          omega
        · have : (1 : Int) ≤ (L : Int) := by exact_mod_cast h1
          omega

theorem zeroChan_getElem (L i : Nat) : ((zeroChan L)[i]?).getD 0 = 0 := by
  have h := zeroChan_getD L i
  rw [List.getD_eq_getD_get?] at h
  simpa using h

/-- Witness for C10 at a concrete input: a single length-1 channel. -/
theorem guess_window_always_valid_subrange_witness :
    ∃ s e, _guess_window_from_signal [('G', [0])] = .ok (s, e) ∧
      0 ≤ s ∧ s ≤ e ∧ e ≤ (1 : Int) - 1 :=
  guess_window_always_valid_subrange 'G' [0] [] 1 rfl (by simp) (by decide)

theorem mergedAt_spike (L k : Nat) (v : Int) (i : Nat) :
    mergedAt (spikeTraces L k v) i = (spikeChan L k v).getD i 0 := by
  simp [mergedAt, spikeTraces, zeroChan_getElem]

theorem maxMerged_spike (L k : Nat) (v : Int) (hk : k < L) (hv : 0 < v) :
    maxMerged (spikeTraces L k v) L = v := by
  have hmap : (List.range L).map (mergedAt (spikeTraces L k v)) = spikeChan L k v := by
    rw [spikeChan]
    apply List.map_congr_left
    intro i hi
    rw [mergedAt_spike, spikeChan_getD v (List.mem_range.mp hi)]
  rw [maxMerged, hmap]
  have hvmem : v ∈ spikeChan L k v := by
    rw [spikeChan]
    exact List.mem_map.mpr ⟨k, List.mem_range.mpr hk, by simp⟩
  have hle : v ≤ listMax (spikeChan L k v) := le_listMax hvmem
  have hne : spikeChan L k v ≠ [] := by
    intro hcon
    rw [hcon] at hvmem
    cases hvmem
  have hub : ∀ x ∈ spikeChan L k v, x ≤ v := by
    intro x hx
    rw [spikeChan] at hx
    rcases List.mem_map.mp hx with ⟨i, _, rfl⟩
    by_cases h : i = k
    · simp [h]
    · simp [h]
      omega
  exact le_antisymm (hub _ (listMax_mem hne)) hle

theorem qualifying_spike (L k : Nat) (v : Int) (hk : k < L) (hv : 0 < v) :
    qualifying (spikeTraces L k v) v L = [k] := by
  rw [qualifying, ← range_filter_eq_pt hk]
  apply List.filter_congr
  intro i hi
  have hiL := List.mem_range.mp hi
  rw [mergedAt_spike, spikeChan_getD v hiL]
  by_cases h : i = k
  · simp only [h, if_pos rfl]
    have h1 : v ≤ 100 * v := by omega
    simp [h1]
  · simp only [if_neg h]
    simp [h]
    omega

theorem guess_spike (L k : Nat) (v : Int) (hkL : k < L) (hk100 : 100 ≤ k)
    (hkend : (k : Int) + 100 ≤ (L : Int) - 1) (hv : 0 < v) :
    _guess_window_from_signal (spikeTraces L k v) =
      .ok ((k : Int) - 100, (k : Int) + 100) := by
  have hTr : spikeTraces L k v =
      ('G', spikeChan L k v) ::
        [('A', zeroChan L), ('T', zeroChan L), ('C', zeroChan L)] := rfl
  have hchar := guess_window_characterization 'G' (spikeChan L k v)
      [('A', zeroChan L), ('T', zeroChan L), ('C', zeroChan L)] L
      (by simp [spikeChan])
      (by
        intro p hp
        simp only [List.mem_cons, List.not_mem_nil, or_false] at hp
        rcases hp with rfl | rfl | rfl <;> simp [zeroChan])
      (by omega)
  rw [hTr, hchar, ← hTr, maxMerged_spike L k v hkL hv,
    if_neg (by omega), qualifying_spike L k v hkL hv]
  have hmax : max ((k : Int) - 100) 0 = (k : Int) - 100 := by
    have h1 : (100 : Int) ≤ (k : Int) := by exact_mod_cast hk100
    apply max_eq_left
    omega
  have hmin : min ((k : Int) + 100) ((L : Int) - 1) = (k : Int) + 100 :=
    min_eq_left hkend
  show Except.ok (max ((natListMin [k] : Int) - 100) 0,
      min ((natListMax [k] : Int) + 100) ((L : Int) - 1)) =
    Except.ok ((k : Int) - 100, (k : Int) + 100)
  rw [show natListMin [k] = k from rfl, show natListMax [k] = k from rfl, hmax, hmin]

/-- Claim C4: with `BasePositions` absent or empty the window comes from
the merged (sample-wise summed) intensity curve: if its maximum `M` is
at most 0 the window is the full range; if no index reaches 1% of `M`
the window is the full range; otherwise it is the qualifying index span
padded by 100 and clamped; and a trace whose merged curve has a single
non-zero sample at `k`, with `k` at least 100 away from both ends,
yields exactly `[k - 100, k + 100]`. -/
theorem guess_window_from_signal_spec (b0 : Char) (c0 : List Int) (rest : TraceSet)
    (L : Nat) (hL : c0.length = L) (hrest : ∀ p ∈ rest, p.2.length = L)
    (h1 : 1 ≤ L) :
    (maxMerged ((b0, c0) :: rest) L ≤ 0 →
      _guess_window_from_signal ((b0, c0) :: rest) = .ok (0, (L : Int) - 1)) ∧
    (0 < maxMerged ((b0, c0) :: rest) L →
      qualifying ((b0, c0) :: rest) (maxMerged ((b0, c0) :: rest) L) L = [] →
      _guess_window_from_signal ((b0, c0) :: rest) = .ok (0, (L : Int) - 1)) ∧
    (0 < maxMerged ((b0, c0) :: rest) L →
      ∀ q qs, qualifying ((b0, c0) :: rest) (maxMerged ((b0, c0) :: rest) L) L = q :: qs →
      (natListMin (q :: qs) ∈ q :: qs ∧ ∀ x ∈ q :: qs, natListMin (q :: qs) ≤ x) ∧
      (natListMax (q :: qs) ∈ q :: qs ∧ ∀ x ∈ q :: qs, x ≤ natListMax (q :: qs)) ∧
      _guess_window_from_signal ((b0, c0) :: rest) =
        .ok (max ((natListMin (q :: qs) : Int) - 100) 0,
             min ((natListMax (q :: qs) : Int) + 100) ((L : Int) - 1))) ∧
    (∀ k v, k < L → 100 ≤ k → (k : Int) + 100 ≤ (L : Int) - 1 → 0 < v →
      _guess_window_from_signal (spikeTraces L k v) =
        .ok ((k : Int) - 100, (k : Int) + 100)) := by
  refine ⟨?_, ?_, ?_, ?_⟩
  · intro h
    rw [guess_window_characterization b0 c0 rest L hL hrest h1, if_pos h]
  · intro h hq
    rw [guess_window_characterization b0 c0 rest L hL hrest h1, if_neg (by omega), hq]
  · intro h q qs hq
    refine ⟨⟨natListMin_mem (by simp), fun x hx => natListMin_le hx⟩,
      ⟨natListMax_mem (by simp), fun x hx => le_natListMax hx⟩, ?_⟩
    rw [guess_window_characterization b0 c0 rest L hL hrest h1, if_neg (by omega), hq]
  · intro k v hkL hk100 hkend hv
    exact guess_spike L k v hkL hk100 hkend hv

/-- Witness for C4 at a concrete input: a two-sample all-zero trace set
takes the degenerate branch and returns the full range. -/
theorem guess_window_from_signal_spec_witness :
    _guess_window_from_signal [('G', [0, 0]), ('A', [0, 0]), ('T', [0, 0]), ('C', [0, 0])] =
      .ok (0, (2 : Int) - 1) := by
  have h := (guess_window_from_signal_spec 'G' [0, 0]
    [('A', [0, 0]), ('T', [0, 0]), ('C', [0, 0])] 2 (by decide)
    (by
      intro p hp
      simp only [List.mem_cons, List.not_mem_nil, or_false] at hp
      rcases hp with rfl | rfl | rfl <;> rfl)
    (by decide)).1
  exact h (by decide)

/-- Claim C3: whenever `BasePositions` is present and non-empty, the
displayed x-axis window is
`[max(min(positions) - 100, 0), min(max(positions) + 100, length - 1)]`
(the first two conjuncts pin down `listMin`/`listMax` as the minimum and
maximum of the position list). -/
theorem window_from_base_positions (traces : TraceSet) (ps : List Int)
    (L : Nat) (h : ps ≠ []) :
    (listMin ps ∈ ps ∧ ∀ x ∈ ps, listMin ps ≤ x) ∧
    (listMax ps ∈ ps ∧ ∀ x ∈ ps, x ≤ listMax ps) ∧
    computeWindow traces (some ps) L =
      .ok (max (listMin ps - 100) 0, min (listMax ps + 100) ((L : Int) - 1)) := by
  refine ⟨⟨listMin_mem h, fun x hx => listMin_le hx⟩,
    ⟨listMax_mem h, fun x hx => le_listMax hx⟩, ?_⟩
  simp [computeWindow, h]

/-- Witness for C3 at the spec's concrete example: positions `[10, 20, 30]`
with trace length 1000 give the window `[0, 130]`. -/
theorem window_from_base_positions_witness :
    computeWindow [('G', [0])] (some [10, 20, 30]) 1000 = .ok (0, 130) := by
  rw [(window_from_base_positions [('G', [0])] [10, 20, 30] 1000 (by decide)).2.2]
  rfl

/-- Inserting a fresh key appends it at the end of the dictionary. -/
theorem dictInsert_keys_new (d : TraceSet) (k : Char) (v : List Int)
    (h : k ∉ d.map Prod.fst) :
    dictInsert d k v = d ++ [(k, v)] := by
  rw [dictInsert, if_neg]
  intro hcon
  rcases List.any_eq_true.mp hcon with ⟨p, hp, hpk⟩
  exact h (List.mem_map.mpr ⟨p, hp, by simpa using hpk⟩)

/-- Folding dict insertions over pairs with distinct fresh keys appends
exactly those keys, in order. -/
theorem foldl_dictInsert_keys (pairs : List (Char × List Int)) (d : TraceSet)
    (hnd : (pairs.map Prod.fst).Nodup)
    (hdisj : ∀ k ∈ pairs.map Prod.fst, k ∉ d.map Prod.fst) :
    ((pairs.foldl (fun d p => dictInsert d p.1 p.2) d).map Prod.fst) =
      d.map Prod.fst ++ pairs.map Prod.fst := by
  induction pairs generalizing d with
  | nil => simp
  | cons p t ih =>
    rw [List.foldl_cons]
    have hknot : p.1 ∉ d.map Prod.fst := hdisj p.1 (by simp)
    have hstep : dictInsert d p.1 p.2 = d ++ [(p.1, p.2)] :=
      dictInsert_keys_new d p.1 p.2 hknot
    have hhead : p.1 ∉ t.map Prod.fst := by
      have h2 : (p.1 :: t.map Prod.fst).Nodup := by simpa using hnd
      exact (List.nodup_cons.mp h2).1
    rw [hstep, ih (d ++ [(p.1, p.2)])
      (by
        have h2 : (p.1 :: t.map Prod.fst).Nodup := by simpa using hnd
        exact (List.nodup_cons.mp h2).2)
      (by
        intro k hk
        simp only [List.map_append, List.map_cons, List.map_nil, List.mem_append,
          List.mem_cons, List.not_mem_nil, or_false]
        rintro (hkd | rfl)
        · exact hdisj k (List.mem_cons_of_mem _ hk) hkd
        · exact hhead hk)]
    simp

/-- The keys of the built trace dictionary are exactly the channel order,
when the order has no duplicate letters and at most as many entries as
there are channels. -/
theorem buildTraces_keys (order : List Char) (chans : List (List Int))
    (hnd : order.Nodup) (hlen : order.length ≤ chans.length) :
    (buildTraces order chans).map Prod.fst = order := by
  rw [buildTraces]
  have hmfst : (order.zip chans).map Prod.fst = order := List.map_fst_zip order chans hlen
  rw [foldl_dictInsert_keys (order.zip chans) [] (by rw [hmfst]; exact hnd) (by simp)]
  simpa using hmfst

/-- Successful shape of `parse_ab1_traces` when the sequence and all four
channels resolve. -/
theorem parse_ok_traces (f : AbifFile) (sb : List Nat) (d9 d10 d11 d12 : List Int)
    (h0 : f.openError = none) (hs : resolveSeqBytes f = some sb)
    (h9 : f.data9 = some d9) (h10 : f.data10 = some d10)
    (h11 : f.data11 = some d11) (h12 : f.data12 = some d12) :
    parse_ab1_traces f = .ok
      { traces := buildTraces (channelOrderOf f.fwo) [d9, d10, d11, d12]
      , seq := decodeIgnore sb
      , baseCalls := decodeIgnore sb
      , basePositions := f.ploc2 } := by
  have hch : resolveChannels f = .ok [d9, d10, d11, d12] := by
    rw [resolveChannels, h9, h10, h11, h12]
  rw [parse_ab1_traces, h0, hs, hch]

/-- Claim C2 (amended): when the sequence and four channels resolve, the
trace dictionary has exactly 4 entries provided the filtered channel
order either is well formed — 4 distinct valid letters — or is defaulted
(FWO_ absent, or zero valid letters); in the well-formed case the keys
are exactly the filtered letters, otherwise they are the default order
G,A,T,C. -/
theorem traceset_keys_spec (f : AbifFile) (sb : List Nat)
    (d9 d10 d11 d12 : List Int)
    (h0 : f.openError = none) (hs : resolveSeqBytes f = some sb)
    (h9 : f.data9 = some d9) (h10 : f.data10 = some d10)
    (h11 : f.data11 = some d11) (h12 : f.data12 = some d12) :
    (∀ bs, f.fwo = some bs →
      ((decodeIgnore bs).data.filter (fun c => decide (c ∈ acgtChars))).Nodup →
      ((decodeIgnore bs).data.filter (fun c => decide (c ∈ acgtChars))).length = 4 →
      ∃ r, parse_ab1_traces f = .ok r ∧
        r.traces.map Prod.fst =
          (decodeIgnore bs).data.filter (fun c => decide (c ∈ acgtChars)) ∧
        r.traces.length = 4) ∧
    (f.fwo = none →
      ∃ r, parse_ab1_traces f = .ok r ∧
        r.traces.map Prod.fst = defaultOrder ∧ r.traces.length = 4) ∧
    (∀ bs, f.fwo = some bs →
      (decodeIgnore bs).data.filter (fun c => decide (c ∈ acgtChars)) = [] →
      ∃ r, parse_ab1_traces f = .ok r ∧
        r.traces.map Prod.fst = defaultOrder ∧ r.traces.length = 4) := by
  have hdefault : defaultOrder.Nodup := by decide
  refine ⟨?_, ?_, ?_⟩
  · intro bs hbs hnd hlen4
    refine ⟨_, parse_ok_traces f sb d9 d10 d11 d12 h0 hs h9 h10 h11 h12, ?_, ?_⟩
    · have hord : channelOrderOf f.fwo =
          (decodeIgnore bs).data.filter (fun c => decide (c ∈ acgtChars)) := by
        rw [hbs, channelOrderOf]
        have hne : (decodeIgnore bs).data.filter (fun c => decide (c ∈ acgtChars)) ≠ [] := by
          intro hcon
          rw [hcon] at hlen4
          cases hlen4
        simp [hne]
      rw [hord]
      exact buildTraces_keys _ _ hnd (by rw [hlen4]; simp)
    · have hord : channelOrderOf f.fwo =
          (decodeIgnore bs).data.filter (fun c => decide (c ∈ acgtChars)) := by
        rw [hbs, channelOrderOf]
        have hne : (decodeIgnore bs).data.filter (fun c => decide (c ∈ acgtChars)) ≠ [] := by
          intro hcon
          rw [hcon] at hlen4
          cases hlen4
        simp [hne]
      have hkeys := buildTraces_keys (channelOrderOf f.fwo) [d9, d10, d11, d12]
        (by rw [hord]; exact hnd) (by rw [hord, hlen4]; simp)
      have h2 := congrArg List.length hkeys
      rw [List.length_map] at h2
      rw [h2, hord, hlen4]
  · intro hnone
    refine ⟨_, parse_ok_traces f sb d9 d10 d11 d12 h0 hs h9 h10 h11 h12, ?_, ?_⟩
    · rw [show channelOrderOf f.fwo = defaultOrder by rw [hnone]; rfl]
      exact buildTraces_keys _ _ hdefault (by simp [defaultOrder])
    · have hkeys := buildTraces_keys (channelOrderOf f.fwo) [d9, d10, d11, d12]
        (by rw [show channelOrderOf f.fwo = defaultOrder by rw [hnone]; rfl]; exact hdefault)
        (by rw [show channelOrderOf f.fwo = defaultOrder by rw [hnone]; rfl]; simp [defaultOrder])
      have h2 := congrArg List.length hkeys
      rw [List.length_map] at h2
      rw [h2, show channelOrderOf f.fwo = defaultOrder by rw [hnone]; rfl]
      rfl
  · intro bs hbs hco
    have hord : channelOrderOf f.fwo = defaultOrder := by
      rw [hbs, channelOrderOf]
      simp [hco]
    refine ⟨_, parse_ok_traces f sb d9 d10 d11 d12 h0 hs h9 h10 h11 h12, ?_, ?_⟩
    · rw [hord]
      exact buildTraces_keys _ _ hdefault (by simp [defaultOrder])
    · have hkeys := buildTraces_keys (channelOrderOf f.fwo) [d9, d10, d11, d12]
        (by rw [hord]; exact hdefault) (by rw [hord]; simp [defaultOrder])
      have h2 := congrArg List.length hkeys
      rw [List.length_map] at h2
      rw [h2, hord]
      rfl

/-- A file whose channel-order field decodes to "GATC". -/
def fileGATC : AbifFile :=
  { openError := none, pbas2 := some [65], pbas1 := none, ploc2 := none
  , fwo := some [71, 65, 84, 67]
  , data9 := some [0], data10 := some [0], data11 := some [0], data12 := some [0] }

/-- A file whose channel-order field decodes to just "A": the parse
succeeds but only one channel gets a key. -/
def fileFwoA : AbifFile := { fileGATC with fwo := some [65] }

/-- Witness for C2 on a well-formed channel order: "GATC" yields the four
keys G,A,T,C in file order. -/
theorem traceset_keys_spec_witness :
    ∃ r, parse_ab1_traces fileGATC = .ok r ∧
      r.traces.map Prod.fst = ['G', 'A', 'T', 'C'] ∧ r.traces.length = 4 := by
  obtain ⟨r, h1, h2, h3⟩ :=
    (traceset_keys_spec fileGATC [65] [0] [0] [0] [0]
      rfl rfl rfl rfl rfl rfl).1 [71, 65, 84, 67] rfl (by decide) (by decide)
  exact ⟨r, h1, h2.trans (by decide), h3⟩

/-- Counterexample for C2 as stated: a successfully parsed file whose
`FWO_` field filters to the single letter "A" produces a trace
dictionary with 1 entry, not 4. -/
theorem traceset_four_entries_counterexample :
    (parse_ab1_traces fileFwoA).map (fun r => r.traces.length) = Except.ok 1 ∧
      (1 : Nat) ≠ 4 := ⟨rfl, by decide⟩

/-- When the sequence resolves, the parse never fails with the
missing-sequence error (channel errors carry a DATA tag name). -/
theorem parse_seq_error_needs_both_absent (f : AbifFile) (h0 : f.openError = none)
    (b : List Nat) (hs : resolveSeqBytes f = some b) :
    parse_ab1_traces f ≠ .error (.missingField "序列数据（PBAS2 和 PBAS1）") := by
  intro h
  rw [parse_ab1_traces, h0, hs] at h
  rcases hch : resolveChannels f with e | chans
  · rw [hch] at h
    injection h with h2
    rcases resolveChannels_error_names f e hch with h3 | h3 | h3 | h3 <;>
      rw [h3] at h2 <;> exact absurd h2 (by decide)
  · rw [hch] at h
    exact Except.noConfusion h

/-- Claim C5: the called-base sequence is taken from `PBAS2` when
present, else from `PBAS1`, decoded with error-ignoring decoding, and
the parse fails with the missing-field error exactly when both are
absent. -/
theorem seq_resolution_spec (f : AbifFile) (h0 : f.openError = none) :
    (∀ b, f.pbas2 = some b →
      ∀ r, parse_ab1_traces f = .ok r → r.seq = decodeIgnore b) ∧
    (f.pbas2 = none → ∀ b, f.pbas1 = some b →
      ∀ r, parse_ab1_traces f = .ok r → r.seq = decodeIgnore b) ∧
    ((f.pbas2 = none ∧ f.pbas1 = none) ↔
      parse_ab1_traces f = .error (.missingField "序列数据（PBAS2 和 PBAS1）")) := by
  refine ⟨?_, ?_, ?_⟩
  · intro b hb r hr
    have hs : resolveSeqBytes f = some b := by rw [resolveSeqBytes, hb]
    rw [parse_ab1_traces, h0, hs] at hr
    rcases hch : resolveChannels f with e | chans
    · rw [hch] at hr
      exact Except.noConfusion hr
    · rw [hch] at hr
      cases hr
      rfl
  · intro hnone b hb r hr
    have hs : resolveSeqBytes f = some b := by rw [resolveSeqBytes, hnone]; exact hb
    rw [parse_ab1_traces, h0, hs] at hr
    rcases hch : resolveChannels f with e | chans
    · rw [hch] at hr
      exact Except.noConfusion hr
    · rw [hch] at hr
      cases hr
      rfl
  · constructor
    · rintro ⟨h2, h1⟩
      have hs : resolveSeqBytes f = none := by rw [resolveSeqBytes, h2]; exact h1
      rw [parse_ab1_traces, h0, hs]
    · intro h
      rcases hp2 : f.pbas2 with _ | b
      · rcases hp1 : f.pbas1 with _ | b
        · exact ⟨rfl, rfl⟩
        · exact absurd h (parse_seq_error_needs_both_absent f h0 b
            (by rw [resolveSeqBytes, hp2]; exact hp1))
      · exact absurd h (parse_seq_error_needs_both_absent f h0 b
          (by rw [resolveSeqBytes, hp2]))

/-- A file whose `PBAS2` bytes decode to "AB". -/
def fileAB : AbifFile := { fileGATC with pbas2 := some [65, 66] }

/-- Witness for C5: a file with `PBAS2 = "AB"` parses with sequence "AB";
one with both base-call tags absent fails with the missing-field error. -/
theorem seq_resolution_spec_witness :
    (∃ r, parse_ab1_traces fileAB = .ok r ∧ r.seq = "AB") ∧
    parse_ab1_traces { fileGATC with pbas2 := none, pbas1 := none } =
      .error (.missingField "序列数据（PBAS2 和 PBAS1）") := by
  constructor
  · obtain ⟨r, hr⟩ : ∃ r, parse_ab1_traces fileAB = .ok r := ⟨_, rfl⟩
    exact ⟨r, hr,
      ((seq_resolution_spec fileAB rfl).1 [65, 66] rfl r hr).trans (by decide)⟩
  · exact ((seq_resolution_spec { fileGATC with pbas2 := none, pbas1 := none }
      rfl).2.2).mp ⟨rfl, rfl⟩

/-- Claim C6: each of the four intensity channels is required; the first
one (in the order DATA9, DATA10, DATA11, DATA12) that is missing or
undecodable fails the parse with a `missingField` error naming that
channel, and a failed parse leaves the single-file conversion with no
output image written. -/
theorem missing_channel_spec (f : AbifFile) (h0 : f.openError = none)
    (b : List Nat) (hs : resolveSeqBytes f = some b) :
    (f.data9 = none → parse_ab1_traces f = .error (.missingField "DATA9")) ∧
    (∀ d9, f.data9 = some d9 → f.data10 = none →
      parse_ab1_traces f = .error (.missingField "DATA10")) ∧
    (∀ d9 d10, f.data9 = some d9 → f.data10 = some d10 → f.data11 = none →
      parse_ab1_traces f = .error (.missingField "DATA11")) ∧
    (∀ d9 d10 d11, f.data9 = some d9 → f.data10 = some d10 →
      f.data11 = some d11 → f.data12 = none →
      parse_ab1_traces f = .error (.missingField "DATA12")) ∧
    (∀ e nm sOk, parse_ab1_traces f = .error e →
      (process_single_file ⟨nm, f⟩ sOk).success = false ∧
      (process_single_file ⟨nm, f⟩ sOk).written = false) := by
  refine ⟨?_, ?_, ?_, ?_, ?_⟩
  · intro h9
    have hch : resolveChannels f = .error (.missingField "DATA9") := by
      rw [resolveChannels, h9]
    rw [parse_ab1_traces, h0, hs, hch]
  · intro d9 h9 h10
    have hch : resolveChannels f = .error (.missingField "DATA10") := by
      rw [resolveChannels, h9, h10]
    rw [parse_ab1_traces, h0, hs, hch]
  · intro d9 d10 h9 h10 h11
    have hch : resolveChannels f = .error (.missingField "DATA11") := by
      rw [resolveChannels, h9, h10, h11]
    rw [parse_ab1_traces, h0, hs, hch]
  · intro d9 d10 d11 h9 h10 h11 h12
    have hch : resolveChannels f = .error (.missingField "DATA12") := by
      rw [resolveChannels, h9, h10, h11, h12]
    rw [parse_ab1_traces, h0, hs, hch]
  · intro e nm sOk hp
    constructor <;> simp [process_single_file, hp]

/-- A file lacking the DATA9 channel. -/
def fileNoData9 : AbifFile := { fileGATC with data9 := none }

/-- Witness for C6: the DATA9-less file fails naming DATA9 and its
conversion writes nothing. -/
theorem missing_channel_spec_witness :
    parse_ab1_traces fileNoData9 = .error (.missingField "DATA9") ∧
    (process_single_file ⟨"m.ab1", fileNoData9⟩ true).success = false ∧
    (process_single_file ⟨"m.ab1", fileNoData9⟩ true).written = false := by
  have h := missing_channel_spec fileNoData9 rfl [65] rfl
  have h1 := h.1 rfl
  have h2 := h.2.2.2.2 _ "m.ab1" true h1
  exact ⟨h1, h2.1, h2.2⟩

/-- Claim C7: with `BasePositions` present and a non-empty called
sequence, a guide line is drawn exactly for the zipped (position, base)
pairs whose position lies in `[0, length)`, and a text label exactly for
those of them whose pair index is divisible by 50. -/
theorem render_marks_spec (ps : List Int) (baseCalls : String) (L : Nat)
    (hne : baseCalls ≠ "") :
    (∀ i pos c, (i, pos, c) ∈ (renderMarks (some ps) baseCalls L).1 ↔
      ((ps.zip baseCalls.data)[i]? = some (pos, c) ∧ 0 ≤ pos ∧ pos < (L : Int))) ∧
    (∀ i pos c, (i, pos, c) ∈ (renderMarks (some ps) baseCalls L).2 ↔
      ((ps.zip baseCalls.data)[i]? = some (pos, c) ∧ 0 ≤ pos ∧ pos < (L : Int) ∧
        i % 50 = 0)) := by
  rw [renderMarks, if_neg hne]
  constructor
  · intro i pos c
    constructor
    · intro h
      have h2 := List.mem_filter.mp h
      have h3 := List.mk_mem_enum_iff_getElem?.mp h2.1
      have h4 := of_decide_eq_true h2.2
      exact ⟨h3, h4.1, h4.2⟩
    · rintro ⟨hget, h0p, hLp⟩
      exact List.mem_filter.mpr ⟨List.mk_mem_enum_iff_getElem?.mpr hget,
        decide_eq_true ⟨h0p, hLp⟩⟩
  · intro i pos c
    constructor
    · intro h
      have h2 := List.mem_filter.mp h
      have h3 := List.mem_filter.mp h2.1
      have h4 := List.mk_mem_enum_iff_getElem?.mp h3.1
      have h5 := of_decide_eq_true h3.2
      have h6 : i % 50 = 0 := by simpa using h2.2
      exact ⟨h4, h5.1, h5.2, h6⟩
    · rintro ⟨hget, h0p, hLp, h50⟩
      exact List.mem_filter.mpr
        ⟨List.mem_filter.mpr ⟨List.mk_mem_enum_iff_getElem?.mpr hget,
          decide_eq_true ⟨h0p, hLp⟩⟩, by simpa using h50⟩

/-- Witness for C7: with one base called at position 5 on a length-10
trace, the pair (index 0) gets both a guide line and a label. -/
theorem render_marks_spec_witness :
    ("A" : String) ≠ "" ∧
    (0, (5 : Int), 'A') ∈ (renderMarks (some [5]) "A" 10).1 ∧
    (0, (5 : Int), 'A') ∈ (renderMarks (some [5]) "A" 10).2 := by
  refine ⟨by decide, ?_, ?_⟩
  · exact ((render_marks_spec [5] "A" 10 (by decide)).1 0 5 'A').mpr (by decide)
  · exact ((render_marks_spec [5] "A" 10 (by decide)).2 0 5 'A').mpr (by decide)

/-- Claim C8: `process_single_file` never lets an exception escape: the
conversion pipeline's outcome is always converted into the returned
`(success, message)` pair — `(true, none)` when the pipeline completes,
`(false, the error message)` when it would raise. -/
theorem process_single_file_catches_all (nf : NamedFile) (saveOk : Bool) :
    (conversionOutcome nf saveOk = .ok () ∧
      (process_single_file nf saveOk).success = true ∧
      (process_single_file nf saveOk).message = none) ∨
    (∃ m, conversionOutcome nf saveOk = .error m ∧
      (process_single_file nf saveOk).success = false ∧
      (process_single_file nf saveOk).message = some m) := by
  rcases hp : parse_ab1_traces nf.file with e | r
  · right
    refine ⟨errMsg e, ?_, ?_, ?_⟩ <;>
      simp [conversionOutcome, process_single_file, hp]
  · rcases hr : (plot_chromatogram r.traces r.seq r.baseCalls r.basePositions saveOk).result
      with e2 | u
    · right
      refine ⟨e2, ?_, ?_, ?_⟩ <;>
        simp [conversionOutcome, process_single_file, hp, hr]
    · left
      cases u
      refine ⟨?_, ?_, ?_⟩ <;>
        simp [conversionOutcome, process_single_file, hp, hr]

/-- Reports whether an `Except` value is a success. -/
def exceptIsOk : Except String Unit → Bool
  | .ok _ => true
  | .error _ => false

/-- Claim C9 (amended): the matplotlib figure is closed before
`plot_chromatogram` returns exactly when the call completes successfully;
on any raise — in particular a `savefig` failure — the exception
propagates before `plt.close()` runs, leaving the figure open. -/
theorem figure_closed_iff_plot_ok (traces : TraceSet) (seq baseCalls : String)
    (basePositions : Option (List Int)) (saveOk : Bool) :
    (plot_chromatogram traces seq baseCalls basePositions saveOk).figureClosed =
      exceptIsOk (plot_chromatogram traces seq baseCalls basePositions saveOk).result := by
  rcases traces with _ | ⟨⟨b0, c0⟩, rest⟩
  · rfl
  · rw [plot_chromatogram]
    by_cases hrest : rest.any (fun p => decide (p.2.length ≠ c0.length))
    · simp only [hrest]
      rfl
    · simp only [hrest]
      rcases hW : computeWindow ((b0, c0) :: rest) basePositions c0.length with e | w
      · simp only [Bool.false_eq_true, if_neg, hW]
        rfl
      · simp only [Bool.false_eq_true, if_neg, hW]
        cases saveOk <;> rfl

/-- Counterexample for C9 as stated: on an otherwise fine input whose
save fails, the figure is left open (not closed) when the exception
propagates. -/
theorem figure_closed_counterexample :
    (plot_chromatogram [('G', [1])] "" "" none false).figureClosed = false ∧
    (plot_chromatogram [('G', [1])] "" "" none false).result =
      .error "savefig failed" := ⟨rfl, rfl⟩

/-- Well-formed batch input: channel order "GATC", sequence "A", all
channels present. -/
def goodNamed : NamedFile := ⟨"good.ab1", fileGATC⟩

/-- Batch input whose parse fails on the missing DATA9 channel. -/
def badNamed : NamedFile := ⟨"bad.ab1", fileNoData9⟩

/-- Claim C1 evidence: a batch of 2 files of which 1 fails.  The failing
file is reported unsuccessful, writes no output and logs a message
containing its file name — but the summary count is 2, not 1, because
`if process_single_file(...)` tests the truthiness of the returned
`(success, message)` tuple, which is always truthy. -/
theorem batch_summary_counts_failures_as_successes :
    (process_path [(goodNamed, true), (badNamed, true)]).summarySuccess = 2 ∧
    (process_path [(goodNamed, true), (badNamed, true)]).total = 2 ∧
    (process_path [(goodNamed, true), (badNamed, true)]).results.map
      (fun r => r.success) = [true, false] ∧
    (process_path [(goodNamed, true), (badNamed, true)]).results.map
      (fun r => r.written) = [true, false] ∧
    (∃ pre suf, (process_path [(goodNamed, true), (badNamed, true)]).results.map
      (fun r => r.logs) =
        [["[OK] good.ab1 -> good.png"], [pre ++ "bad.ab1" ++ suf]]) :=
  ⟨rfl, rfl, rfl, rfl,
    ⟨"[ERROR] 处理 ", " 时出错: 无法从 ab1 文件中获取 DATA9 数据", rfl⟩⟩

end Ab1
